import Mathlib

/-!
Verification of the UDF resource of a Snowflake Terraform provider.

Shallow embedding of two Go packages:

* `pkg/snowflake/udf.go` — the SQL statement builder (`UdfBuilder` and its
  render methods `QualifiedName`, `Create`, `Rename`, `Secure`, `Unsecure`,
  `Show`, `Drop`),
* `pkg/resources/udf.go` — the composite-identifier codec
  (`udfID.String` / `udfIDFromString`, built on Go's `encoding/csv` with a
  `'|'` delimiter) and the CRUD entry points (`CreateUdf`, `ReadUdf`,
  `UpdateUdf`).

Go strings are modelled as Lean `String` (a structure around `List Char`);
`fmt.Sprintf` with `%v` on strings is plain concatenation; fallible Go
functions returning `(T, error)` are modelled as `Except String T`.
-/

deriving instance DecidableEq for Except

namespace Snowflake

/-- Modelled from the spec: the escaping function `EscapeString`
(referenced by `pkg/snowflake/udf.go` but defined in a file of the
repository that is not available).  The spec's escaping rule: any `"`
inside a double-quoted identifier and any `'` inside a single-quoted
literal must be neutralized/escaped before interpolation; we escape by
prefixing a backslash, also escaping the backslash itself. -/
def escChar (c : Char) : List Char :=
  if c = '\\' then ['\\', '\\']
  else if c = '\'' then ['\\', '\'']
  else if c = '"' then ['\\', '"']
  else [c]

/-- Modelled from the spec: see `escChar`. -/
def EscapeString (s : String) : String :=
  ⟨s.data.flatMap escChar⟩

/-- One function argument: `Argument` struct of udf.go (field `_type`
is named that way in the source because `type` is reserved in Go). -/
structure Argument where
  name : String
  _type : String
deriving DecidableEq, Repr

/-- `Argument.getArgumentDefinition` (udf.go:27-32): renders
`"<name>" <type>` with both parts escaped.  The Go nil-receiver branch
returning `""` is dead in a value model (the builder stores argument
values, never nil pointers) and is not modelled. -/
def Argument.getArgumentDefinition (c : Argument) : String :=
  "\"" ++ EscapeString c.name ++ "\" " ++ EscapeString c._type

/-- `Argument.getArgumentTypeDefinition` (udf.go:34-39): renders the
escaped type only. -/
def Argument.getArgumentTypeDefinition (c : Argument) : String :=
  EscapeString c._type

/-- `Arguments.getArgumentDefinitions` (udf.go:43-52): parenthesized,
comma-joined `"<name>" <type>` pairs. -/
def getArgumentDefinitions (args : List Argument) : String :=
  "(" ++ String.intercalate ", " (args.map Argument.getArgumentDefinition) ++ ")"

/-- `Arguments.getArgumentTypesDefinitions` (udf.go:54-63):
parenthesized, comma-joined escaped types. -/
def getArgumentTypesDefinitions (args : List Argument) : String :=
  "(" ++ String.intercalate ", " (args.map Argument.getArgumentTypeDefinition) ++ ")"

/-- `UdfBuilder` (udf.go:68-78).  All fields default to the Go zero
value, as produced by the `Udf(name)` constructor plus `With*` setters. -/
structure UdfBuilder where
  name : String := ""
  db : String := ""
  schema : String := ""
  replace : Bool := false
  secure : Bool := false
  language : String := ""
  returnType : String := ""
  arguments : List Argument := []
  body : String := ""
deriving DecidableEq, Repr

/-- `UdfBuilder.QualifiedName` (udf.go:81-87): errors when db or schema
is empty, otherwise interpolates the three components verbatim between
double quotes (the source applies no escaping here despite its comment). -/
def QualifiedName (vb : UdfBuilder) : Except String String :=
  if vb.db = "" ∨ vb.schema = "" then
    .error "Functions must specify a database and a schema"
  else
    .ok ("\"" ++ vb.db ++ "\".\"" ++ vb.schema ++ "\".\"" ++ vb.name ++ "\"")

/-- `UdfBuilder.Create` (udf.go:155-190). -/
def Create (vb : UdfBuilder) : Except String String := do
  let qn ← QualifiedName vb
  .ok ("CREATE"
    ++ (if vb.replace then " OR REPLACE" else "")
    ++ (if vb.secure then " SECURE" else "")
    ++ " FUNCTION " ++ qn
    ++ " " ++ getArgumentDefinitions vb.arguments
    ++ (if vb.returnType ≠ "" then " RETURNS " ++ EscapeString vb.returnType else "")
    ++ (if vb.language ≠ "" then " LANGUAGE " ++ EscapeString vb.language else "")
    ++ " AS $$ " ++ vb.body ++ " $$")

/-- `UdfBuilder.Rename` (udf.go:193-208).  The Go method mutates
`vb.name`; modelled by returning the updated builder next to the SQL. -/
def Rename (vb : UdfBuilder) (newName : String) : Except String (String × UdfBuilder) := do
  let oldName ← QualifiedName vb
  let vb' := { vb with name := newName }
  let qn ← QualifiedName vb'
  .ok ("ALTER FUNCTION " ++ oldName ++ " "
        ++ getArgumentTypesDefinitions vb.arguments
        ++ " RENAME TO " ++ qn, vb')

/-- `UdfBuilder.Secure` (udf.go:211-220). -/
def Secure (vb : UdfBuilder) : Except String String := do
  let qn ← QualifiedName vb
  .ok ("ALTER FUNCTION " ++ qn ++ " "
        ++ getArgumentTypesDefinitions vb.arguments ++ " SET SECURE")

/-- `UdfBuilder.Unsecure` (udf.go:223-232). -/
def Unsecure (vb : UdfBuilder) : Except String String := do
  let qn ← QualifiedName vb
  .ok ("ALTER FUNCTION " ++ qn ++ " "
        ++ getArgumentTypesDefinitions vb.arguments ++ " UNSET SECURE")

/-- `UdfBuilder.Show` (udf.go:258-260): total; interpolates name, db and
schema verbatim with no validation and no escaping. -/
def Show (vb : UdfBuilder) : String :=
  "SHOW FUNCTIONS LIKE '" ++ vb.name ++ "' IN SCHEMA \"" ++ vb.db ++ "\".\"" ++ vb.schema ++ "\""

/-- `UdfBuilder.Drop` (udf.go:263-272). -/
def Drop (vb : UdfBuilder) : Except String String := do
  let qn ← QualifiedName vb
  .ok ("DROP FUNCTION " ++ qn ++ " "
        ++ getArgumentTypesDefinitions vb.arguments)

end Snowflake

namespace Resources

/-- Modelled from the spec: the package-level delimiter constant
`pipeIDDelimiter` (referenced by `pkg/resources/udf.go` but defined in a
file of the repository that is not available); the spec's Boundary 2
fixes the persisted-identifier delimiter to the pipe character. -/
def pipeIDDelimiter : Char := '|'

/-- `udfID` struct (resources/udf.go:113-117). -/
structure UdfID where
  DatabaseName : String
  SchemaName : String
  Name : String
deriving DecidableEq, Repr

/-- The set of characters Go's `unicode.IsSpace` accepts (the Latin-1
fast path plus the Unicode `White_Space` table), used by both
`strings.TrimSpace` and the csv writer's quoting decision. -/
def goSpaceChars : List Char :=
  ['\t', '\n', '\x0b', '\x0c', '\r', ' ', '\x85', '\xa0',
   '\u1680', '\u2000', '\u2001', '\u2002', '\u2003', '\u2004', '\u2005',
   '\u2006', '\u2007', '\u2008', '\u2009', '\u200a', '\u2028', '\u2029',
   '\u202f', '\u205f', '\u3000']

/-- `unicode.IsSpace` as a Bool predicate. -/
def isGoSpace (c : Char) : Bool := goSpaceChars.contains c

/-- `strings.TrimSpace`: drop leading and trailing Unicode whitespace. -/
def trimSpace (cs : List Char) : List Char :=
  ((cs.dropWhile isGoSpace).reverse.dropWhile isGoSpace).reverse

/-- Go `csv.Writer.fieldNeedsQuotes` with `Comma = comma`: a field is
quoted when it is `\.`, contains the comma, a double quote, CR or LF,
or begins with a space character.  The empty field is never quoted. -/
def fieldNeedsQuotes (comma : Char) : List Char → Bool
  | [] => false
  | c :: cs =>
    decide (c :: cs = ['\\', '.'])
      || (c :: cs).any (fun x => x = comma || x = '"' || x = '\r' || x = '\n')
      || isGoSpace c

/-- Inside a quoted csv field the writer doubles `"`; with `UseCRLF`
unset, CR and LF are written through unchanged. -/
def escapeQuoted (cs : List Char) : List Char :=
  cs.flatMap (fun c => if c = '"' then ['"', '"'] else [c])

/-- Go `csv.Writer.Write` rendering of one field. -/
def writeField (comma : Char) (f : List Char) : List Char :=
  if fieldNeedsQuotes comma f then '"' :: (escapeQuoted f ++ ['"']) else f

/-- Fields of one record joined by the comma rune. -/
def joinFields (comma : Char) : List (List Char) → List Char
  | [] => []
  | [f] => writeField comma f
  | f :: fs => writeField comma f ++ comma :: joinFields comma fs

/-- Go `csv.Writer.Write`: one record plus the `\n` terminator
(`UseCRLF` is unset). -/
def writeRecord (comma : Char) (fs : List (List Char)) : List Char :=
  joinFields comma fs ++ ['\n']

/-- Go `csv.Writer.WriteAll` into an in-memory buffer. -/
def writeAll (comma : Char) (rs : List (List (List Char))) : List Char :=
  (rs.map (writeRecord comma)).flatten

/-- `udfID.String` (resources/udf.go:121-132): csv-encode the single
record `[DatabaseName, SchemaName, Name]` with `Comma = '|'`, then
`strings.TrimSpace` the buffer.  The Go error return is dead code
(writing to a `bytes.Buffer` cannot fail), so the model is total. -/
def udfIDString (si : UdfID) : String :=
  ⟨trimSpace (writeAll '|' [[si.DatabaseName.data, si.SchemaName.data, si.Name.data]])⟩

/-- Errors of Go's `encoding/csv` reader that `udfIDFromString` can
observe (all collapse to "Not CSV compatible"). -/
inductive CsvErr
  | bareQuote
  | quote
  | fieldCount
deriving DecidableEq, Repr

/-- How a csv field ended: at a comma, at an end of line, or at the end
of the input. -/
inductive FieldEnd
  | comma
  | newline
  | eof
deriving DecidableEq, Repr

/-- Go `csv.Reader.readLine` normalization, applied to the whole input:
every `\r\n` becomes `\n`. -/
def normalizeCRLF : List Char → List Char
  | [] => []
  | c :: rest =>
    if c = '\r' then
      match rest with
      | '\n' :: r2 => '\n' :: normalizeCRLF r2
      | other => c :: normalizeCRLF other
    else c :: normalizeCRLF rest

/-- Go `csv.Reader.readLine` also drops a lone `\r` standing
immediately before end of input. -/
def preprocessCSV (cs : List Char) : List Char :=
  let n := normalizeCRLF cs
  if n.getLast? = some '\r' then n.dropLast else n

/-- Parse the remainder of a quoted field (the opening `"` already
consumed): `""` is an escaped quote; a closing `"` must be followed by
the comma, an end of line, or the end of input, anything else is a
`Quote` error, as is end of input before the closing quote.  Fuel
bounds recursion; one unit per character suffices. -/
def parseQuotedBody (comma : Char) : Nat → List Char → Except CsvErr (List Char × FieldEnd × List Char)
  | 0, _ => .error .quote
  | _ + 1, [] => .error .quote
  | fuel + 1, c :: rest =>
    if c = '"' then
      match rest with
      | [] => .ok ([], .eof, [])
      | c2 :: r2 =>
        if c2 = '"' then
          match parseQuotedBody comma fuel r2 with
          | .error e => .error e
          | .ok (fld, e, rst) => .ok ('"' :: fld, e, rst)
        else if c2 = comma then .ok ([], .comma, r2)
        else if c2 = '\n' then .ok ([], .newline, r2)
        else .error .quote
    else
      match parseQuotedBody comma fuel rest with
      | .error e => .error e
      | .ok (fld, e, rst) => .ok (c :: fld, e, rst)

/-- Parse an unquoted field: everything up to the comma or end of line;
a bare `"` inside it is an error (`LazyQuotes` is unset). -/
def parseUnquoted (comma : Char) (cs : List Char) : Except CsvErr (List Char × FieldEnd × List Char) :=
  let fld := cs.takeWhile (fun c => c ≠ comma && c ≠ '\n')
  if fld.any (fun c => c = '"') then .error .bareQuote
  else
    match cs.dropWhile (fun c => c ≠ comma && c ≠ '\n') with
    | '\n' :: r => .ok (fld, .newline, r)
    | _ :: r => .ok (fld, .comma, r)
    | [] => .ok (fld, .eof, [])

/-- Parse one field: quoted when it starts with `"`. -/
def parseField (comma : Char) (cs : List Char) : Except CsvErr (List Char × FieldEnd × List Char) :=
  match cs with
  | [] => parseUnquoted comma []
  | c :: rest =>
    if c = '"' then parseQuotedBody comma (rest.length + 1) rest
    else parseUnquoted comma (c :: rest)

/-- Parse the fields of one record (which may span lines when quoted
fields contain line breaks), returning the unconsumed input. -/
def parseFields (comma : Char) : Nat → List Char → Except CsvErr (List (List Char) × List Char)
  | 0, _ => .error .quote
  | fuel + 1, cs =>
    match parseField comma cs with
    | .error e => .error e
    | .ok (fld, .comma, rst) =>
      match parseFields comma fuel rst with
      | .error e => .error e
      | .ok (flds, rst2) => .ok (fld :: flds, rst2)
    | .ok (fld, .newline, rst) => .ok ([fld], rst)
    | .ok (fld, .eof, _) => .ok ([fld], [])

/-- Go `csv.Reader.readRecord` loop: blank lines are skipped, otherwise
one record is parsed per iteration. -/
def parseRecords (comma : Char) : Nat → List Char → Except CsvErr (List (List (List Char)))
  | 0, _ => .error .quote
  | _ + 1, [] => .ok []
  | fuel + 1, c :: rest =>
    if c = '\n' then parseRecords comma fuel rest
    else
      match parseFields comma ((c :: rest).length + 1) (c :: rest) with
      | .error e => .error e
      | .ok (flds, rst) =>
        match parseRecords comma fuel rst with
        | .error e => .error e
        | .ok recs => .ok (flds :: recs)

/-- Go `csv.ReadAll` with `FieldsPerRecord = 0`: the first record fixes
the field count and any later record with a different count is an
error. -/
def readAllCSV (comma : Char) (cs : List Char) : Except CsvErr (List (List (List Char))) :=
  match parseRecords comma ((preprocessCSV cs).length + 2) (preprocessCSV cs) with
  | .error e => .error e
  | .ok [] => .ok []
  | .ok (r :: rs) =>
    if rs.all (fun x => x.length = r.length) then .ok (r :: rs)
    else .error .fieldCount

/-- `udfIDFromString` (resources/udf.go:136-157): csv-parse with the
pipe delimiter; demand exactly one record of exactly three fields. -/
def udfIDFromString (stringID : String) : Except String UdfID :=
  match readAllCSV pipeIDDelimiter stringID.data with
  | .error _ => .error "Not CSV compatible"
  | .ok [] => .error "1 line per pipe"
  | .ok [fields] =>
    match fields with
    | [d, s, n] => .ok ⟨⟨d⟩, ⟨s⟩, ⟨n⟩⟩
    | _ => .error "3 fields allowed"
  | .ok (_ :: _ :: _) => .error "1 line per pipe"

end Resources

namespace Resources

/-- The `udf` scan struct (snowflake/udf.go:274-282); the model carries
the `.String` projection of each `sql.NullString` plus the boolean, the
only values `ReadUdf` copies into resource state. -/
structure ScannedUdf where
  comment : String := ""
  isSecure : Bool := false
  name : String := ""
  schemaName : String := ""
  language : String := ""
  arguments : String := ""
  databaseName : String := ""
deriving DecidableEq, Repr

/-- Outcome of `snowflake.QueryRow` + `ScanUdf` on the read path:
`noRows` models `sql.ErrNoRows`, `scanErr` any other driver error,
`row` a successfully scanned row. -/
inductive ScanResult
  | noRows
  | scanErr (e : String)
  | row (v : ScannedUdf)
deriving DecidableEq, Repr

/-- The slice of `schema.ResourceData` that the UDF resource touches:
the persisted identifier (`d.Id()`) and the stored fields. -/
structure ResourceState where
  id : String := ""
  name : String := ""
  isSecure : Bool := false
  language : String := ""
  schema : String := ""
  database : String := ""
deriving DecidableEq, Repr

/-- `ReadUdf` (resources/udf.go:239-303): decode the persisted id
(propagating decode errors); on `sql.ErrNoRows` clear the id and return
success; on a scanned row copy its fields into state.  The `d.Set`
calls are external SDK operations modelled as always succeeding. -/
def ReadUdf (st : ResourceState) (res : ScanResult) : Except String ResourceState :=
  match udfIDFromString st.id with
  | .error e => .error e
  | .ok _ =>
    match res with
    | .noRows => .ok { st with id := "" }
    | .scanErr e => .error e
    | .row v =>
      .ok { st with name := v.name, isSecure := v.isSecure,
                    language := v.language, schema := v.schemaName,
                    database := v.databaseName }

/-- The identifier `CreateUdf` persists after a successful create
(resources/udf.go:224-233): `udfID{database, schema, name}.String()`. -/
def createUdfSetId (database schema name : String) : String :=
  udfIDString ⟨database, schema, name⟩

/-- The identifier `UpdateUdf` persists after a successful rename
(resources/udf.go:332): `fmt.Sprintf("%v|%v|%v", dbName, schema, name)`,
a raw pipe join with no csv quoting. -/
def updateUdfSetId (dbName schema name : String) : String :=
  dbName ++ "|" ++ schema ++ "|" ++ name

/-- A field is plain when it contains neither the pipe delimiter, a
double quote, a carriage return nor a line feed — the spec's "without
embedded delimiter / quote-breaking sequences" regime. -/
def plainField (f : List Char) : Bool :=
  f.all (fun c => !(c = '|' || c = '"' || c = '\r' || c = '\n'))

/-- True when the field's last character (if any) is not Unicode
whitespace, so `strings.TrimSpace` on the encoded record cannot eat
into it. -/
def lastNotSpace (f : List Char) : Bool :=
  match f.getLast? with
  | none => true
  | some c => !isGoSpace c

end Resources

namespace Claims

open Snowflake Resources

/-- Claim C1 (code bug): contrary to the claim (and to the source's own
comment "escapes everything nicely"), `QualifiedName` interpolates the
database, schema and object name verbatim, without the escaping
function: with database `a"b` the rendered qualified name and the
rendered `CREATE` statement contain the raw inner quote, which
terminates the double-quoted identifier early, and differ from what
interpolating the escaped database would produce. -/
theorem qualifiedName_not_escaped :
    QualifiedName { name := "n", db := "a\"b", schema := "s" } = .ok "\"a\"b\".\"s\".\"n\""
    ∧ Create { name := "n", db := "a\"b", schema := "s" }
        = .ok "CREATE FUNCTION \"a\"b\".\"s\".\"n\" () AS $$  $$"
    ∧ EscapeString "a\"b" ≠ "a\"b"
    ∧ ("\"" ++ EscapeString "a\"b" ++ "\".\"s\".\"n\"" : String) ≠ "\"a\"b\".\"s\".\"n\"" := by
  refine ⟨rfl, rfl, by decide, by decide⟩

/-- Claim C4: `Create()` renders the fixed-order template with absent
optional clauses simply omitted and the argument parentheses always
present; the two concrete renders of the spec are exact. -/
theorem create_renders_template :
    (∀ args : List Argument, ∃ inner, getArgumentDefinitions args = "(" ++ inner ++ ")")
    ∧ Create { name := "fn", db := "db", schema := "schema",
               arguments := [{ name := "arg1", _type := "OBJECT" }], body := "body text" }
        = .ok "CREATE FUNCTION \"db\".\"schema\".\"fn\" (\"arg1\" OBJECT) AS $$ body text $$"
    ∧ Create { name := "fn", db := "db", schema := "schema", secure := true,
               returnType := "VARIANT",
               arguments := [{ name := "arg1", _type := "OBJECT" },
                             { name := "arg2", _type := "VARCHAR" }], body := "..." }
        = .ok "CREATE SECURE FUNCTION \"db\".\"schema\".\"fn\" (\"arg1\" OBJECT, \"arg2\" VARCHAR) RETURNS VARIANT AS $$ ... $$" := by
  exact ⟨fun args => ⟨String.intercalate ", " (args.map Argument.getArgumentDefinition), rfl⟩,
         rfl, rfl⟩

/-- Claim C6: `QualifiedName()` errors exactly when database or schema
is empty (for every name), and otherwise returns the three components
each individually double-quoted and joined with dots. -/
theorem qualifiedName_spec (vb : UdfBuilder) :
    ((QualifiedName vb).isOk = false ↔ (vb.db = "" ∨ vb.schema = ""))
    ∧ (vb.db ≠ "" → vb.schema ≠ "" →
        QualifiedName vb
          = .ok ("\"" ++ vb.db ++ "\".\"" ++ vb.schema ++ "\".\"" ++ vb.name ++ "\"")) := by
  constructor
  · unfold QualifiedName
    by_cases h : vb.db = "" ∨ vb.schema = "" <;> simp [h, Except.isOk, Except.toBool]
  · intro h1 h2
    unfold QualifiedName
    simp [h1, h2]

/-- Witness for C6 at a concrete builder with empty name. -/
theorem qualifiedName_spec_witness :
    QualifiedName { name := "", db := "d", schema := "s" }
      = .ok ("\"" ++ "d" ++ "\".\"" ++ "s" ++ "\".\"" ++ "" ++ "\"") :=
  (qualifiedName_spec { name := "", db := "d", schema := "s" }).2 (by decide) (by decide)

end Claims

namespace Claims

/-- Claim C5: on a builder with non-empty database and schema,
`Rename(newName)` renders `ALTER FUNCTION <old> (<types>) RENAME TO
<new>`, the signature clause holds only the argument types, and the
returned builder carries the new name, so its qualified name reflects
it. -/
theorem rename_spec (vb : Snowflake.UdfBuilder) (newName : String)
    (h1 : vb.db ≠ "") (h2 : vb.schema ≠ "") :
    Snowflake.Rename vb newName
      = .ok ("ALTER FUNCTION "
              ++ ("\"" ++ vb.db ++ "\".\"" ++ vb.schema ++ "\".\"" ++ vb.name ++ "\"")
              ++ " " ++ Snowflake.getArgumentTypesDefinitions vb.arguments
              ++ " RENAME TO "
              ++ ("\"" ++ vb.db ++ "\".\"" ++ vb.schema ++ "\".\"" ++ newName ++ "\""),
             { vb with name := newName })
    ∧ Snowflake.getArgumentTypesDefinitions vb.arguments
        = "(" ++ String.intercalate ", "
              (vb.arguments.map (fun a => Snowflake.EscapeString a._type)) ++ ")"
    ∧ Snowflake.QualifiedName { vb with name := newName }
        = .ok ("\"" ++ vb.db ++ "\".\"" ++ vb.schema ++ "\".\"" ++ newName ++ "\"") := by
  refine ⟨?_, rfl, ?_⟩ <;>
    simp [Snowflake.Rename, Snowflake.QualifiedName, h1, h2, String.append_assoc,
          Bind.bind, Except.bind]

/-- Witness for C5: a rename on a two-argument builder yields a
types-only signature clause, and the updated builder's qualified name
shows the new name. -/
theorem rename_spec_witness :
    Snowflake.Rename { name := "old", db := "d", schema := "s",
                       arguments := [{ name := "a1", _type := "OBJECT" },
                                     { name := "a2", _type := "VARCHAR" }] } "new"
      = .ok ("ALTER FUNCTION \"d\".\"s\".\"old\" (OBJECT, VARCHAR) RENAME TO \"d\".\"s\".\"new\"",
             { name := "new", db := "d", schema := "s",
               arguments := [{ name := "a1", _type := "OBJECT" },
                             { name := "a2", _type := "VARCHAR" }] })
    ∧ Snowflake.QualifiedName { name := "new", db := "d", schema := "s",
                                 arguments := [{ name := "a1", _type := "OBJECT" },
                                               { name := "a2", _type := "VARCHAR" }] }
      = .ok "\"d\".\"s\".\"new\"" := by
  have h := rename_spec { name := "old", db := "d", schema := "s",
                          arguments := [{ name := "a1", _type := "OBJECT" },
                                        { name := "a2", _type := "VARCHAR" }] } "new" (by decide) (by decide)
  exact ⟨h.1.trans (by rfl), h.2.2.trans (by rfl)⟩

/-- Claim C9: with non-empty database and schema, `Secure()` and
`Unsecure()` both succeed and render the same string up to the trailing
`SET SECURE` versus `UNSET SECURE`. -/
theorem secure_unsecure_spec (vb : Snowflake.UdfBuilder)
    (h1 : vb.db ≠ "") (h2 : vb.schema ≠ "") :
    ∃ p, Snowflake.Secure vb = .ok (p ++ " SET SECURE")
      ∧ Snowflake.Unsecure vb = .ok (p ++ " UNSET SECURE") := by
  refine ⟨"ALTER FUNCTION "
      ++ ("\"" ++ vb.db ++ "\".\"" ++ vb.schema ++ "\".\"" ++ vb.name ++ "\"")
      ++ " " ++ Snowflake.getArgumentTypesDefinitions vb.arguments, ?_, ?_⟩ <;>
    simp [Snowflake.Secure, Snowflake.Unsecure, Snowflake.QualifiedName, h1, h2,
          String.append_assoc, Bind.bind, Except.bind]

/-- Witness for C9 at a concrete builder. -/
theorem secure_unsecure_spec_witness :
    ∃ p, Snowflake.Secure { name := "n", db := "d", schema := "s" } = .ok (p ++ " SET SECURE")
      ∧ Snowflake.Unsecure { name := "n", db := "d", schema := "s" } = .ok (p ++ " UNSET SECURE") :=
  secure_unsecure_spec { name := "n", db := "d", schema := "s" } (by decide) (by decide)

/-- Claim C10: `Show()` is total and performs no scope validation — it
interpolates name, database and schema verbatim for every builder state
— whereas `Create`, `Rename`, `Secure`, `Unsecure` and `Drop` all fail
whenever database or schema is empty. -/
theorem show_no_validation (vb : Snowflake.UdfBuilder) (newName : String) :
    Snowflake.Show vb
      = "SHOW FUNCTIONS LIKE '" ++ vb.name ++ "' IN SCHEMA \"" ++ vb.db ++ "\".\"" ++ vb.schema ++ "\""
    ∧ ((vb.db = "" ∨ vb.schema = "") →
        (Snowflake.Create vb).isOk = false
        ∧ (Snowflake.Rename vb newName).isOk = false
        ∧ (Snowflake.Secure vb).isOk = false
        ∧ (Snowflake.Unsecure vb).isOk = false
        ∧ (Snowflake.Drop vb).isOk = false) := by
  refine ⟨rfl, fun h => ?_⟩
  simp [Snowflake.Create, Snowflake.Rename, Snowflake.Secure, Snowflake.Unsecure,
        Snowflake.Drop, Snowflake.QualifiedName, h, Except.isOk, Except.toBool,
        Bind.bind, Except.bind]

/-- Witness for C10: a builder with empty database renders `SHOW` with
the empty scope interpolated verbatim while the five validated
statements all fail. -/
theorem show_no_validation_witness :
    Snowflake.Show { name := "n", db := "", schema := "s" }
      = "SHOW FUNCTIONS LIKE '" ++ "n" ++ "' IN SCHEMA \"" ++ "" ++ "\".\"" ++ "s" ++ "\""
    ∧ ((Snowflake.Create { name := "n", db := "", schema := "s" }).isOk = false
        ∧ (Snowflake.Rename { name := "n", db := "", schema := "s" } "m").isOk = false
        ∧ (Snowflake.Secure { name := "n", db := "", schema := "s" }).isOk = false
        ∧ (Snowflake.Unsecure { name := "n", db := "", schema := "s" }).isOk = false
        ∧ (Snowflake.Drop { name := "n", db := "", schema := "s" }).isOk = false) :=
  ⟨(show_no_validation { name := "n", db := "", schema := "s" } "m").1,
   (show_no_validation { name := "n", db := "", schema := "s" } "m").2 (Or.inl rfl)⟩

/-- Claim C8: on the read path, when the `Show()` query returns zero
rows, `ReadUdf` does not return an error — it clears the persisted
identifier and returns success (given any decodable identifier). -/
theorem readudf_norows (st : Resources.ResourceState) (u : Resources.UdfID)
    (h : Resources.udfIDFromString st.id = .ok u) :
    Resources.ReadUdf st .noRows = .ok { st with id := "" } := by
  unfold Resources.ReadUdf
  rw [h]

/-- Witness for C8 at the identifier `a|b|c`. -/
theorem readudf_norows_witness :
    Resources.ReadUdf { id := "a|b|c" } .noRows = .ok { id := "" } :=
  readudf_norows { id := "a|b|c" } ⟨"a", "b", "c"⟩ (by decide)

end Claims

namespace Resources

/-- Characters of a plain field are not the pipe, a double quote, CR or
LF. -/
theorem plainField_mem {f : List Char} (hf : plainField f = true) {c : Char} (hc : c ∈ f) :
    c ≠ '|' ∧ c ≠ '"' ∧ c ≠ '\r' ∧ c ≠ '\n' := by
  have h := (List.all_eq_true.mp hf) c hc
  simp only [Bool.not_eq_true', Bool.or_eq_false_iff, decide_eq_false_iff_not] at h
  exact ⟨h.1.1.1, h.1.1.2, h.1.2, h.2⟩

/-- `takeWhile` runs through a prefix all of whose elements satisfy the
predicate. -/
theorem takeWhile_all_append {α} (p : α → Bool) (f t : List α) (hf : ∀ c ∈ f, p c = true) :
    (f ++ t).takeWhile p = f ++ t.takeWhile p := by
  induction f with
  | nil => simp
  | cons c cs ih =>
    simp only [List.cons_append, List.takeWhile_cons, hf c (List.mem_cons_self c cs), if_true]
    rw [ih fun x hx => hf x (List.mem_cons_of_mem c hx)]

/-- `dropWhile` drops a prefix all of whose elements satisfy the
predicate. -/
theorem dropWhile_all_append {α} (p : α → Bool) (f t : List α) (hf : ∀ c ∈ f, p c = true) :
    (f ++ t).dropWhile p = t.dropWhile p := by
  induction f with
  | nil => simp
  | cons c cs ih =>
    simp only [List.cons_append, List.dropWhile_cons, hf c (List.mem_cons_self c cs), if_true]
    exact ih fun x hx => hf x (List.mem_cons_of_mem c hx)

/-- An unquoted plain field followed by the delimiter parses back to
itself with a `comma` ending. -/
theorem parseUnquoted_comma (f rest : List Char) (hf : plainField f = true) :
    parseUnquoted '|' (f ++ '|' :: rest) = .ok (f, .comma, rest) := by
  have hall : ∀ c ∈ f, (fun c => c ≠ '|' && c ≠ '\n') c = true := by
    intro c hc
    have h := plainField_mem hf hc
    simp [h.1, h.2.2.2]
  have hq : (f.any fun c => decide (c = '"')) = false := by
    rw [List.any_eq_false]
    intro c hc
    simp [(plainField_mem hf hc).2.1]
  unfold parseUnquoted
  rw [takeWhile_all_append _ _ _ hall, dropWhile_all_append _ _ _ hall]
  simp [hq]

/-- An unquoted plain field at the end of input parses back to itself
with an `eof` ending. -/
theorem parseUnquoted_eof (f : List Char) (hf : plainField f = true) :
    parseUnquoted '|' f = .ok (f, .eof, []) := by
  have hall : ∀ c ∈ f, (fun c => c ≠ '|' && c ≠ '\n') c = true := by
    intro c hc
    have h := plainField_mem hf hc
    simp [h.1, h.2.2.2]
  have hq : (f.any fun c => decide (c = '"')) = false := by
    rw [List.any_eq_false]
    intro c hc
    simp [(plainField_mem hf hc).2.1]
  unfold parseUnquoted
  rw [List.takeWhile_eq_self_iff.mpr hall, List.dropWhile_eq_nil_iff.mpr hall]
  simp [hq]

end Resources

namespace Resources

/-- Parsing the body of a quoted field whose content has no quote,
terminated by `"` and the delimiter. -/
theorem parseQuotedBody_comma (f : List Char) (hq : ∀ c ∈ f, c ≠ '"') :
    ∀ fuel, f.length + 1 ≤ fuel → ∀ rest,
    parseQuotedBody '|' fuel (f ++ '"' :: '|' :: rest) = .ok (f, .comma, rest) := by
  induction f with
  | nil =>
    intro fuel hfuel rest
    obtain ⟨k, rfl⟩ : ∃ k, fuel = k + 1 := ⟨fuel - 1, by omega⟩
    simp [parseQuotedBody]
  | cons a f' ih =>
    intro fuel hfuel rest
    obtain ⟨k, rfl⟩ : ∃ k, fuel = k + 1 := ⟨fuel - 1, by omega⟩
    have ha : (a = '"') = False := by
      simp [hq a (List.mem_cons_self a f')]
    have hk : f'.length + 1 ≤ k := by
      simp at hfuel
      omega
    simp only [List.cons_append, parseQuotedBody, ha, if_false, List.append_eq]
    rw [ih (fun c hc => hq c (List.mem_cons_of_mem a hc)) k hk rest]

/-- Parsing the body of a quoted field whose content has no quote,
terminated by `"` at the end of the input. -/
theorem parseQuotedBody_eof (f : List Char) (hq : ∀ c ∈ f, c ≠ '"') :
    ∀ fuel, f.length + 1 ≤ fuel →
    parseQuotedBody '|' fuel (f ++ ['"']) = .ok (f, .eof, []) := by
  induction f with
  | nil =>
    intro fuel hfuel
    obtain ⟨k, rfl⟩ : ∃ k, fuel = k + 1 := ⟨fuel - 1, by omega⟩
    simp [parseQuotedBody]
  | cons a f' ih =>
    intro fuel hfuel
    obtain ⟨k, rfl⟩ : ∃ k, fuel = k + 1 := ⟨fuel - 1, by omega⟩
    have ha : (a = '"') = False := by
      simp [hq a (List.mem_cons_self a f')]
    have hk : f'.length + 1 ≤ k := by
      simp at hfuel
      omega
    simp only [List.cons_append, parseQuotedBody, ha, if_false, List.append_eq]
    rw [ih (fun c hc => hq c (List.mem_cons_of_mem a hc)) k hk]

/-- On quote-free content the writer's in-quotes escaping is the
identity. -/
theorem escapeQuoted_plain (f : List Char) (hq : ∀ c ∈ f, c ≠ '"') :
    escapeQuoted f = f := by
  induction f with
  | nil => rfl
  | cons a f' ih =>
    have ha : (a = '"') = False := by
      simp [hq a (List.mem_cons_self a f')]
    simp only [escapeQuoted, List.flatMap_cons, ha, if_false]
    simpa [escapeQuoted] using ih fun c hc => hq c (List.mem_cons_of_mem a hc)

end Resources

namespace Resources

/-- A plain field contains no quote character. -/
theorem plainField_no_quote {f : List Char} (hf : plainField f = true) :
    ∀ c ∈ f, c ≠ '"' :=
  fun c hc => (plainField_mem hf hc).2.1

/-- A raw (never-quoted) plain field followed by the delimiter parses
with a `comma` ending. -/
theorem parseField_raw_comma (f rest : List Char) (hf : plainField f = true) :
    parseField '|' (f ++ '|' :: rest) = .ok (f, .comma, rest) := by
  match f, hf with
  | [], _ => simpa [parseField] using parseUnquoted_comma [] rest rfl
  | c :: cs, hf =>
    have hc : (c = '"') = False := by
      simp [(plainField_mem hf (List.mem_cons_self c cs)).2.1]
    simp only [List.cons_append, parseField, hc, if_false]
    simpa using parseUnquoted_comma (c :: cs) rest hf

/-- A raw plain field standing alone parses with an `eof` ending. -/
theorem parseField_raw_eof (f : List Char) (hf : plainField f = true) :
    parseField '|' f = .ok (f, .eof, []) := by
  match f, hf with
  | [], _ => simp [parseField, parseUnquoted]
  | c :: cs, hf =>
    have hc : (c = '"') = False := by
      simp [(plainField_mem hf (List.mem_cons_self c cs)).2.1]
    simp only [parseField, hc, if_false]
    exact parseUnquoted_eof (c :: cs) hf

/-- The written form of a plain field followed by the delimiter parses
back to the field with a `comma` ending, whether or not the writer
chose to quote it. -/
theorem parseField_wf_comma (f rest : List Char) (hf : plainField f = true) :
    parseField '|' (writeField '|' f ++ '|' :: rest) = .ok (f, .comma, rest) := by
  by_cases hq : fieldNeedsQuotes '|' f = true
  · have hesc := escapeQuoted_plain f (plainField_no_quote hf)
    have hshape : writeField '|' f ++ '|' :: rest = '"' :: (f ++ '"' :: '|' :: rest) := by
      simp [writeField, hq, hesc]
    rw [hshape]
    simp only [parseField, if_pos rfl]
    exact parseQuotedBody_comma f (plainField_no_quote hf) _
      (by simp only [List.length_append, List.length_cons]; omega) rest
  · have hshape : writeField '|' f = f := by
      simp [writeField, hq]
    rw [hshape]
    exact parseField_raw_comma f rest hf

/-- The written form of a plain field at the end of the record parses
back to the field with an `eof` ending. -/
theorem parseField_wf_eof (f : List Char) (hf : plainField f = true) :
    parseField '|' (writeField '|' f) = .ok (f, .eof, []) := by
  by_cases hq : fieldNeedsQuotes '|' f = true
  · have hesc := escapeQuoted_plain f (plainField_no_quote hf)
    have hshape : writeField '|' f = '"' :: (f ++ ['"']) := by
      simp [writeField, hq, hesc]
    rw [hshape]
    simp only [parseField, if_pos rfl]
    exact parseQuotedBody_eof f (plainField_no_quote hf) _
      (by simp only [List.length_append, List.length_cons]; omega)
  · have hshape : writeField '|' f = f := by
      simp [writeField, hq]
    rw [hshape]
    exact parseField_raw_eof f hf

end Resources

namespace Resources

/-- The joined written fields of a nonempty list of plain fields parse
back to exactly those fields, consuming the whole input. -/
theorem parseFields_joinFields (fs : List (List Char)) (hne : fs ≠ [])
    (hp : ∀ f ∈ fs, plainField f = true) :
    ∀ fuel, (joinFields '|' fs).length + 1 ≤ fuel →
    parseFields '|' fuel (joinFields '|' fs) = .ok (fs, []) := by
  induction fs with
  | nil => exact absurd rfl hne
  | cons f fs' ih =>
    intro fuel hfuel
    obtain ⟨k, rfl⟩ : ∃ k, fuel = k + 1 := ⟨fuel - 1, by omega⟩
    match fs' with
    | [] =>
      have hf := hp f (List.mem_cons_self f [])
      simp only [joinFields] at hfuel ⊢
      simp [parseFields, parseField_wf_eof f hf]
    | g :: gs =>
      have hf := hp f (List.mem_cons_self f (g :: gs))
      have hjoin : joinFields '|' (f :: g :: gs)
          = writeField '|' f ++ '|' :: joinFields '|' (g :: gs) := rfl
      rw [hjoin] at hfuel ⊢
      have hk : (joinFields '|' (g :: gs)).length + 1 ≤ k := by
        simp only [List.length_append, List.length_cons] at hfuel
        omega
      simp only [parseFields, parseField_wf_comma f _ hf,
        ih (by simp) (fun x hx => hp x (List.mem_cons_of_mem f hx)) k hk]

/-- A raw pipe-join of three plain fields parses back to the three
fields. -/
theorem parseFields_raw3 (d s n : List Char)
    (hd : plainField d = true) (hs : plainField s = true) (hn : plainField n = true) :
    ∀ fuel, (d ++ '|' :: s ++ '|' :: n).length + 1 ≤ fuel →
    parseFields '|' fuel (d ++ '|' :: s ++ '|' :: n) = .ok ([d, s, n], []) := by
  intro fuel hfuel
  obtain ⟨k, rfl⟩ : ∃ k, fuel = k + 1 := ⟨fuel - 1, by omega⟩
  obtain ⟨k2, rfl⟩ : ∃ k2, k = k2 + 1 := by
    refine ⟨k - 1, ?_⟩
    simp only [List.length_append, List.length_cons] at hfuel
    omega
  obtain ⟨k3, rfl⟩ : ∃ k3, k2 = k3 + 1 := by
    refine ⟨k2 - 1, ?_⟩
    simp only [List.length_append, List.length_cons] at hfuel
    omega
  have h1 : parseField '|' (d ++ '|' :: s ++ '|' :: n) = .ok (d, .comma, s ++ '|' :: n) := by
    have := parseField_raw_comma d (s ++ '|' :: n) hd
    simpa using this
  simp only [parseFields, h1, parseField_raw_comma s n hs, parseField_raw_eof n hn]

end Resources

namespace Resources

/-- A single record whose first character is not a newline and whose
fields parse exactly is read back as one record. -/
theorem parseRecords_single (c : Char) (rest : List Char) (flds : List (List Char))
    (hc : c ≠ '\n')
    (hp : parseFields '|' ((c :: rest).length + 1) (c :: rest) = .ok (flds, [])) :
    parseRecords '|' ((c :: rest).length + 2) (c :: rest) = .ok [flds] := by
  have hstep : (c :: rest).length + 2 = ((c :: rest).length + 1) + 1 := rfl
  rw [hstep]
  simp only [parseRecords, hc, if_false, hp]

/-- `normalizeCRLF` is the identity on CR-free input. -/
theorem normalizeCRLF_id (cs : List Char) (h : ∀ c ∈ cs, c ≠ '\r') :
    normalizeCRLF cs = cs := by
  induction cs with
  | nil => rfl
  | cons c rest ih =>
    have hc : (c = '\r') = False := by
      simp [h c (List.mem_cons_self c rest)]
    rw [normalizeCRLF.eq_def]
    simp only [hc, if_false]
    rw [ih fun x hx => h x (List.mem_cons_of_mem c hx)]

/-- `preprocessCSV` is the identity on CR-free input. -/
theorem preprocessCSV_id (cs : List Char) (h : ∀ c ∈ cs, c ≠ '\r') :
    preprocessCSV cs = cs := by
  unfold preprocessCSV
  rw [normalizeCRLF_id cs h]
  have : (cs.getLast? = some '\r') = False := by
    rcases List.eq_nil_or_concat cs with hnil | ⟨l', a, hcat⟩
    · simp [hnil]
    · subst hcat
      simp only [List.concat_eq_append, List.getLast?_concat]
      have := h a (by simp)
      simp [this]
  simp [this]

end Resources

namespace Resources

/-- `dropWhile` is the identity when the head fails the predicate. -/
theorem dropWhile_eq_self_of_head (p : Char → Bool) (l : List Char)
    (h : ∀ c, l.head? = some c → p c = false) : l.dropWhile p = l := by
  cases l with
  | nil => simp
  | cons a t => simp [List.dropWhile_cons, h a rfl]

/-- `dropWhile` on the reverse is the identity when the last element
fails the predicate. -/
theorem dropWhile_reverse_eq_self (p : Char → Bool) (l : List Char)
    (h : ∀ c, l.getLast? = some c → p c = false) :
    l.reverse.dropWhile p = l.reverse := by
  rcases List.eq_nil_or_concat l with rfl | ⟨l', a, rfl⟩
  · simp
  · simp only [List.concat_eq_append, List.reverse_append, List.reverse_cons, List.reverse_nil,
      List.nil_append, List.singleton_append, List.dropWhile_cons]
    simp [h a (by simp [List.getLast?_concat])]

/-- The head of a written plain field followed by the delimiter is
never whitespace. -/
theorem core_head_not_space (d t0 : List Char) (hd : plainField d = true) :
    ∀ c, (writeField '|' d ++ '|' :: t0).head? = some c → isGoSpace c = false := by
  intro c hc
  by_cases hq : fieldNeedsQuotes '|' d = true
  · rw [writeField, if_pos hq] at hc
    simp only [List.cons_append, List.head?_cons, Option.some_inj] at hc
    subst hc
    decide
  · rw [writeField, if_neg hq] at hc
    match d, hd, hq, hc with
    | [], _, _, hc =>
      simp only [List.nil_append, List.head?_cons, Option.some_inj] at hc
      subst hc
      decide
    | a :: cs, hd, hq, hc =>
      simp only [List.cons_append, List.head?_cons, Option.some_inj] at hc
      subst hc
      simp only [fieldNeedsQuotes, Bool.or_eq_true, not_or, Bool.not_eq_true] at hq
      exact hq.2

/-- The last element of `(B ++ ['|']) ++ writeField '|' n` is never
whitespace for a plain `n` whose last character is not whitespace. -/
theorem core_getLast_not_space (B n : List Char) (hn : plainField n = true)
    (hl : lastNotSpace n = true) :
    ∀ c, ((B ++ ['|']) ++ writeField '|' n).getLast? = some c → isGoSpace c = false := by
  intro c hc
  by_cases hq : fieldNeedsQuotes '|' n = true
  · rw [writeField, if_pos hq, escapeQuoted_plain n (plainField_no_quote hn)] at hc
    rw [show (B ++ ['|']) ++ '"' :: (n ++ ['"'])
        = ((B ++ ['|']) ++ '"' :: n) ++ ['"'] from by simp, List.getLast?_concat] at hc
    rw [Option.some_inj] at hc
    subst hc
    decide
  · rw [writeField, if_neg hq] at hc
    rcases List.eq_nil_or_concat n with rfl | ⟨n', a, rfl⟩
    · rw [show (B ++ ['|']) ++ ([] : List Char) = B ++ ['|'] from by simp,
        List.getLast?_concat, Option.some_inj] at hc
      subst hc
      decide
    · rw [show (B ++ ['|']) ++ (n'.concat a) = ((B ++ ['|']) ++ n') ++ [a] from by simp,
        List.getLast?_concat, Option.some_inj] at hc
      subst hc
      unfold lastNotSpace at hl
      rw [show (n'.concat a).getLast? = some a from by simp [List.getLast?_concat]] at hl
      simpa using hl

end Resources

namespace Resources

/-- Characters of a written plain field are the field's characters or
the quote character. -/
theorem mem_writeField {f : List Char} (hf : plainField f = true) {c : Char}
    (hc : c ∈ writeField '|' f) : c ∈ f ∨ c = '"' := by
  by_cases hq : fieldNeedsQuotes '|' f = true
  · rw [writeField, if_pos hq, escapeQuoted_plain f (plainField_no_quote hf)] at hc
    rcases List.mem_cons.mp hc with h | h
    · right
      exact h
    · rcases List.mem_append.mp h with h2 | h2
      · left
        exact h2
      · right
        simpa using h2
  · rw [writeField, if_neg hq] at hc
    left
    exact hc

/-- The record core of three plain fields contains no CR. -/
theorem core_no_cr (d s n : List Char)
    (hd : plainField d = true) (hs : plainField s = true) (hn : plainField n = true) :
    ∀ c ∈ joinFields '|' [d, s, n], c ≠ '\r' := by
  intro c hc
  have hshape : joinFields '|' [d, s, n]
      = writeField '|' d ++ '|' :: (writeField '|' s ++ '|' :: writeField '|' n) := rfl
  rw [hshape] at hc
  rcases List.mem_append.mp hc with h | h
  · rcases mem_writeField hd h with h2 | h2
    · exact (plainField_mem hd h2).2.2.1
    · subst h2
      decide
  · rcases List.mem_cons.mp h with h2 | h2
    · subst h2
      decide
    · rcases List.mem_append.mp h2 with h3 | h3
      · rcases mem_writeField hs h3 with h4 | h4
        · exact (plainField_mem hs h4).2.2.1
        · subst h4
          decide
      · rcases List.mem_cons.mp h3 with h4 | h4
        · subst h4
          decide
        · rcases mem_writeField hn h4 with h5 | h5
          · exact (plainField_mem hn h5).2.2.1
          · subst h5
            decide

/-- `strings.TrimSpace` leaves the encoded record (with its newline
terminator removed) untouched when the three fields are plain and the
last field does not end in whitespace. -/
theorem trim_record (d s n : List Char)
    (hd : plainField d = true) (hs : plainField s = true) (hn : plainField n = true)
    (hl : lastNotSpace n = true) :
    trimSpace (joinFields '|' [d, s, n] ++ ['\n']) = joinFields '|' [d, s, n] := by
  have hshape : joinFields '|' [d, s, n]
      = writeField '|' d ++ '|' :: (writeField '|' s ++ '|' :: writeField '|' n) := rfl
  have hleft : (joinFields '|' [d, s, n] ++ ['\n']).dropWhile isGoSpace
      = joinFields '|' [d, s, n] ++ ['\n'] := by
    apply dropWhile_eq_self_of_head
    intro c hc
    rw [hshape] at hc
    rw [show (writeField '|' d ++ '|' :: (writeField '|' s ++ '|' :: writeField '|' n)) ++ ['\n']
        = writeField '|' d ++ '|' :: ((writeField '|' s ++ '|' :: writeField '|' n) ++ ['\n'])
        from by simp] at hc
    exact core_head_not_space d _ hd c hc
  have hcoreB : joinFields '|' [d, s, n]
      = ((writeField '|' d ++ '|' :: writeField '|' s) ++ ['|']) ++ writeField '|' n := by
    rw [hshape]
    simp
  have hright : (joinFields '|' [d, s, n]).reverse.dropWhile isGoSpace
      = (joinFields '|' [d, s, n]).reverse := by
    apply dropWhile_reverse_eq_self
    intro c hc
    rw [hcoreB] at hc
    exact core_getLast_not_space _ n hn hl c hc
  unfold trimSpace
  rw [hleft]
  rw [show (joinFields '|' [d, s, n] ++ ['\n']).reverse
      = '\n' :: (joinFields '|' [d, s, n]).reverse from by simp]
  rw [show ('\n' :: (joinFields '|' [d, s, n]).reverse).dropWhile isGoSpace
      = (joinFields '|' [d, s, n]).reverse.dropWhile isGoSpace from by
    rw [List.dropWhile_cons, if_pos (by decide)]]
  rw [hright, List.reverse_reverse]

end Resources

namespace Resources

/-- One non-blank record whose fields parse exactly and which contains
no CR is read back as a single csv record. -/
theorem readAllCSV_single (cs : List Char) (flds : List (List Char))
    (hne : cs ≠ [])
    (hnr : ∀ c ∈ cs, c ≠ '\r')
    (hhd : ∀ c, cs.head? = some c → c ≠ '\n')
    (hp : parseFields '|' (cs.length + 1) cs = .ok (flds, [])) :
    readAllCSV '|' cs = .ok [flds] := by
  match cs, hne, hhd, hp with
  | c :: rest, _, hhd, hp =>
    have hrec := parseRecords_single c rest flds (hhd c rfl) hp
    unfold readAllCSV
    rw [preprocessCSV_id (c :: rest) hnr]
    rw [hrec]
    simp

/-- Round trip of the csv encoder and decoder on three plain fields
whose last field does not end in whitespace. -/
theorem decode_encode_plain (d s n : String)
    (hd : plainField d.data = true) (hs : plainField s.data = true)
    (hn : plainField n.data = true) (hl : lastNotSpace n.data = true) :
    udfIDFromString (udfIDString ⟨d, s, n⟩) = .ok ⟨d, s, n⟩ := by
  have henc : udfIDString ⟨d, s, n⟩ = ⟨joinFields '|' [d.data, s.data, n.data]⟩ := by
    unfold udfIDString
    rw [show writeAll '|' [[d.data, s.data, n.data]]
        = joinFields '|' [d.data, s.data, n.data] ++ ['\n'] from by
      simp [writeAll, writeRecord]]
    rw [trim_record d.data s.data n.data hd hs hn hl]
  rw [henc]
  have hne : joinFields '|' [d.data, s.data, n.data] ≠ [] := by
    rw [show joinFields '|' [d.data, s.data, n.data]
        = writeField '|' d.data ++ '|' :: (writeField '|' s.data ++ '|' :: writeField '|' n.data)
        from rfl]
    simp
  have hhd : ∀ c, (joinFields '|' [d.data, s.data, n.data]).head? = some c → c ≠ '\n' := by
    intro c hc heq
    have h2 := core_head_not_space d.data _ hd c hc
    subst heq
    exact absurd h2 (by decide)
  have hnr := core_no_cr d.data s.data n.data hd hs hn
  have hfields := parseFields_joinFields [d.data, s.data, n.data] (by simp)
    (by
      intro f hf
      rcases List.mem_cons.mp hf with h | h
      · subst h
        exact hd
      rcases List.mem_cons.mp h with h2 | h2
      · subst h2
        exact hs
      rcases List.mem_cons.mp h2 with h3 | h3
      · subst h3
        exact hn
      · simp at h3)
    ((joinFields '|' [d.data, s.data, n.data]).length + 1) (by omega)
  have hread := readAllCSV_single _ _ hne hnr hhd hfields
  unfold udfIDFromString
  rw [show (String.mk (joinFields '|' [d.data, s.data, n.data])).data
      = joinFields '|' [d.data, s.data, n.data] from rfl]
  rw [show pipeIDDelimiter = '|' from rfl, hread]

end Resources

namespace Resources

/-- Decoding a raw pipe join of three plain fields (the `UpdateUdf`
persisted form) recovers the three fields. -/
theorem decode_rawjoin_plain (d s n : String)
    (hd : plainField d.data = true) (hs : plainField s.data = true)
    (hn : plainField n.data = true) :
    udfIDFromString (d ++ "|" ++ s ++ "|" ++ n) = .ok ⟨d, s, n⟩ := by
  have hdata : (d ++ "|" ++ s ++ "|" ++ n).data
      = d.data ++ '|' :: (s.data ++ '|' :: n.data) := by
    simp [String.data_append]
  have hne : d.data ++ '|' :: (s.data ++ '|' :: n.data) ≠ [] := by
    simp
  have hhd : ∀ c, (d.data ++ '|' :: (s.data ++ '|' :: n.data)).head? = some c → c ≠ '\n' := by
    intro c hc heq
    subst heq
    match hD : d.data, hd with
    | [], _ =>
      rw [hD] at hc
      simp at hc
    | a :: cs, hd2 =>
      rw [hD] at hc
      simp only [List.cons_append, List.head?_cons, Option.some_inj] at hc
      subst hc
      have h5 := plainField_mem hd2 (List.mem_cons_self '\n' cs)
      exact h5.2.2.2 rfl
  have hnr : ∀ c ∈ d.data ++ '|' :: (s.data ++ '|' :: n.data), c ≠ '\r' := by
    intro c hc
    rcases List.mem_append.mp hc with h | h
    · exact (plainField_mem hd h).2.2.1
    rcases List.mem_cons.mp h with h2 | h2
    · subst h2
      decide
    rcases List.mem_append.mp h2 with h3 | h3
    · exact (plainField_mem hs h3).2.2.1
    rcases List.mem_cons.mp h3 with h4 | h4
    · subst h4
      decide
    · exact (plainField_mem hn h4).2.2.1
  have hfields := parseFields_raw3 d.data s.data n.data hd hs hn
    ((d.data ++ '|' :: (s.data ++ '|' :: n.data)).length + 1) (by simp)
  have hread := readAllCSV_single _ _ hne hnr hhd (by simpa using hfields)
  unfold udfIDFromString
  rw [hdata, show pipeIDDelimiter = '|' from rfl, hread]

end Resources

namespace Claims

/-- Claim C2 counterexample: the fields `a`, `b`, `c ` contain no pipe,
yet encoding then decoding returns `c` — `strings.TrimSpace` in
`udfID.String` eats the trailing space of the last field — so the
round trip is not the identity. -/
theorem roundtrip_counterexample :
    ('|' ∉ "a".data ∧ '|' ∉ "b".data ∧ '|' ∉ "c ".data)
    ∧ Resources.udfIDFromString (Resources.udfIDString ⟨"a", "b", "c "⟩)
        = .ok ⟨"a", "b", "c"⟩
    ∧ Resources.udfIDFromString (Resources.udfIDString ⟨"a", "b", "c "⟩)
        ≠ .ok ⟨"a", "b", "c "⟩ := by
  refine ⟨by decide, by decide, by decide⟩

/-- Claim C2 as amended: for fields containing neither the pipe, a
double quote, CR nor LF, and whose name does not end in Unicode
whitespace, decoding the encoding returns exactly the original
triple. -/
theorem roundtrip_plain (d s n : String)
    (hd : Resources.plainField d.data = true) (hs : Resources.plainField s.data = true)
    (hn : Resources.plainField n.data = true) (hl : Resources.lastNotSpace n.data = true) :
    Resources.udfIDFromString (Resources.udfIDString ⟨d, s, n⟩) = .ok ⟨d, s, n⟩ :=
  Resources.decode_encode_plain d s n hd hs hn hl

/-- Witness for the amended C2 at the triple `db`, `sch`, `fn`. -/
theorem roundtrip_plain_witness :
    Resources.udfIDFromString (Resources.udfIDString ⟨"db", "sch", "fn"⟩)
      = .ok ⟨"db", "sch", "fn"⟩ :=
  roundtrip_plain "db" "sch" "fn" (by decide) (by decide) (by decide) (by decide)

/-- Claim C3 counterexample: `UpdateUdf` persists a raw pipe join, so a
name containing the delimiter yields a four-field identifier whose
decoding fails; and on the `CreateUdf` path a name with a trailing
space is persisted trimmed, so decoding does not return the original
triple. -/
theorem persisted_id_counterexample :
    Resources.updateUdfSetId "db" "schema" "a|b" = "db|schema|a|b"
    ∧ (Resources.udfIDFromString (Resources.updateUdfSetId "db" "schema" "a|b")).isOk = false
    ∧ Resources.udfIDFromString (Resources.createUdfSetId "a" "b" "c ")
        ≠ .ok ⟨"a", "b", "c "⟩ := by
  refine ⟨by decide, by decide, by decide⟩

/-- Claim C3 as amended: for database, schema and name containing
neither the pipe, a double quote, CR nor LF, with the name not ending
in Unicode whitespace, both persisted identifiers — the csv encoding
set by `CreateUdf` and the raw pipe join set by `UpdateUdf` — decode to
exactly that triple. -/
theorem persisted_id_plain (database schema name : String)
    (hd : Resources.plainField database.data = true)
    (hs : Resources.plainField schema.data = true)
    (hn : Resources.plainField name.data = true)
    (hl : Resources.lastNotSpace name.data = true) :
    Resources.udfIDFromString (Resources.createUdfSetId database schema name)
        = .ok ⟨database, schema, name⟩
    ∧ Resources.udfIDFromString (Resources.updateUdfSetId database schema name)
        = .ok ⟨database, schema, name⟩ :=
  ⟨Resources.decode_encode_plain database schema name hd hs hn hl,
   Resources.decode_rawjoin_plain database schema name hd hs hn⟩

/-- Witness for the amended C3 at the triple `data base`, `sc`, `f`. -/
theorem persisted_id_plain_witness :
    Resources.udfIDFromString (Resources.createUdfSetId "data base" "sc" "f")
        = .ok ⟨"data base", "sc", "f"⟩
    ∧ Resources.udfIDFromString (Resources.updateUdfSetId "data base" "sc" "f")
        = .ok ⟨"data base", "sc", "f"⟩ :=
  persisted_id_plain "data base" "sc" "f" (by decide) (by decide) (by decide) (by decide)

/-- Claim C7: `udfIDFromString` fails whenever the input is not
csv-parseable, parses to more than one record, or parses to one record
whose field count is not three; in particular `a|b` and `a|b|c|d` both
fail. -/
theorem decode_malformed :
    Resources.udfIDFromString "a|b" = .error "3 fields allowed"
    ∧ Resources.udfIDFromString "a|b|c|d" = .error "3 fields allowed"
    ∧ (∀ t : String, ∀ e, Resources.readAllCSV Resources.pipeIDDelimiter t.data = .error e →
        Resources.udfIDFromString t = .error "Not CSV compatible")
    ∧ (∀ t : String, ∀ lines,
        Resources.readAllCSV Resources.pipeIDDelimiter t.data = .ok lines →
        lines.length ≠ 1 → (Resources.udfIDFromString t).isOk = false)
    ∧ (∀ t : String, ∀ fields,
        Resources.readAllCSV Resources.pipeIDDelimiter t.data = .ok [fields] →
        fields.length ≠ 3 → Resources.udfIDFromString t = .error "3 fields allowed") := by
  refine ⟨by decide, by decide, ?_, ?_, ?_⟩
  · intro t e h
    unfold Resources.udfIDFromString
    rw [h]
  · intro t lines h hlen
    unfold Resources.udfIDFromString
    rw [h]
    match lines, hlen with
    | [], _ => simp [Except.isOk, Except.toBool]
    | [x], h1 => exact (h1 rfl).elim
    | x :: y :: r, _ => simp [Except.isOk, Except.toBool]
  · intro t fields h hlen
    unfold Resources.udfIDFromString
    rw [h]
    match fields, hlen with
    | [], _ => rfl
    | [a], _ => rfl
    | [a, b], _ => rfl
    | [a, b, c], h3 => exact (h3 rfl).elim
    | a :: b :: c :: e :: r, _ => rfl

/-- Witness for C7: a bare-quote input is not csv-parseable, a
two-record input has a record count other than one, and a two-field
record has a field count other than three. -/
theorem decode_malformed_witness :
    Resources.udfIDFromString "x\"y" = .error "Not CSV compatible"
    ∧ (Resources.udfIDFromString "e|f|g\nh|i|j").isOk = false
    ∧ Resources.udfIDFromString "p|q" = .error "3 fields allowed" :=
  ⟨decode_malformed.2.2.1 "x\"y" Resources.CsvErr.bareQuote (by decide),
   decode_malformed.2.2.2.1 "e|f|g\nh|i|j"
     [[['e'], ['f'], ['g']], [['h'], ['i'], ['j']]] (by decide) (by decide),
   decode_malformed.2.2.2.2 "p|q" [['p'], ['q']] (by decide) (by decide)⟩

end Claims
